import Mathlib

/-!
Shallow embedding of the kemono content-synchronization engine
(src/lib.rs, src/main.rs, src/errors.rs) and verification of its
specification claims.

Strings are modelled by Lean `String` (a wrapper around `List Char`),
the filesystem by a partial map from path strings to file contents, and
the network by a function from URLs to either a response body or a
transport error carrying an optional HTTP status code (the result of
`error_for_status`).  Logging calls are tracked as booleans/lists where a
claim observes them.
-/

namespace Kemono

/-- Models `DEFAULT_DOWNLOAD_PATH` from src/lib.rs. -/
def DEFAULT_DOWNLOAD_PATH : String := "./download"

/-- Models `struct Attachment` from src/lib.rs: optional display name and
optional server-relative path; equality is by (name, path). -/
structure Attachment where
  name : Option String
  path : Option String
deriving DecidableEq, Repr

/-- Models `struct Post` from src/lib.rs.  `embed` is an opaque JSON value,
kept as its raw text.  `attachments` is a `HashSet<Attachment>` in the
source; it is modelled as a duplicate-free list (see `hsOfList`). -/
structure Post where
  id : String
  user : String
  service : String
  title : String
  content : Option String
  embed : String
  shared_file : Option Bool
  file : Attachment
  added : String
  published : String
  edited : Option Bool
  poll : Option Bool
  captions : Option (List String)
  tags : Option (List String)
  attachments : Option (List Attachment)
deriving DecidableEq, Repr

/-- Insertion into a `HashSet<Attachment>`: a no-op when the element is
already present (equality is the derived (name, path) equality). -/
def hsInsert (a : Attachment) (s : List Attachment) : List Attachment :=
  if a ∈ s then s else s ++ [a]

/-- Building a `HashSet<Attachment>` from a stream of elements (e.g. the
entries of the JSON array being deserialized). -/
def hsOfList (l : List Attachment) : List Attachment :=
  l.foldl (fun s a => hsInsert a s) []

/-- Models the client state used by the download pipeline
(`struct KemonoClient`, src/lib.rs); session/cookie transport state is out
of scope. -/
structure KemonoClient where
  hostname : String
  download_path : Option String
deriving DecidableEq, Repr

/-- Models `KemonoClient::get_base_download_path`. -/
def KemonoClient.get_base_download_path (c : KemonoClient) : String :=
  c.download_path.getD DEFAULT_DOWNLOAD_PATH

/-- Models `KemonoClient::get_download_path` (base + creator + service). -/
def KemonoClient.get_download_path (c : KemonoClient) (service creator : String) : String :=
  c.get_base_download_path ++ "/" ++ creator ++ "/" ++ service

/-- Models `KemonoClient::max_per_page`. -/
def KemonoClient.max_per_page (_ : KemonoClient) : Nat := 50

/-! ## `get_mkv_filename` (src/lib.rs)

Rust's `filename.split('.')` is modelled at the character-list level by
`splitDot`; the push-loop that reassembles the parts with `'.'`
separators is `joinDot`. -/

/-- The result of `filename.split('.')`: maximal '.'-free segments,
including empty ones (splitting the empty list yields one empty part,
as Rust's `split` does). -/
def splitDot : List Char → List (List Char)
  | [] => [[]]
  | c :: cs =>
    let rest := splitDot cs
    if c = '.' then [] :: rest
    else (c :: rest.headI) :: rest.tail

/-- Reassemble segments with `'.'` separators (the source's push-loop:
a `'.'` before every part except the first). -/
def joinDot : List (List Char) → List Char
  | [] => []
  | [p] => p
  | p :: q :: ps => p ++ '.' :: joinDot (q :: ps)

/-- Per-segment substitution from the source's loop body: a segment equal
to `mp4` or `m4v` becomes `mkv`, anything else is kept. -/
def mkvPart (p : List Char) : List Char :=
  if p = ("mp4").data ∨ p = ("m4v").data then ("mkv").data else p

/-- Models `get_mkv_filename` from src/lib.rs. -/
def get_mkv_filename (filename : String) : String :=
  String.mk (joinDot ((splitDot filename.data).map mkvPart))

theorem splitDot_ne_nil (cs : List Char) : splitDot cs ≠ [] := by
  cases cs with
  | nil => simp [splitDot]
  | cons c cs =>
    simp only [splitDot]
    split <;> simp

theorem not_dot_mem_splitDot (cs : List Char) :
    ∀ p ∈ splitDot cs, '.' ∉ p := by
  induction cs with
  | nil => intro p hp; simp [splitDot] at hp; simp [hp]
  | cons c cs ih =>
    intro p hp
    simp only [splitDot] at hp
    rcases h : splitDot cs with _ | ⟨p0, ps0⟩
    · exact absurd h (splitDot_ne_nil cs)
    · rw [h] at hp
      split at hp
      · rename_i hc
        rw [← h] at hp
        rcases List.mem_cons.mp hp with rfl | hmem
        · simp
        · exact ih p hmem
      · rename_i hc
        simp only [List.headI, List.tail] at hp
        rcases List.mem_cons.mp hp with rfl | hmem
        · intro hd
          rcases List.mem_cons.mp hd with h1 | h2
          · exact hc h1.symm
          · exact ih p0 (h ▸ List.mem_cons_self p0 ps0) h2
        · exact ih p (h ▸ List.mem_cons_of_mem p0 hmem)

theorem joinDot_cons_cons (c : Char) (p : List Char) (ps : List (List Char)) :
    joinDot ((c :: p) :: ps) = c :: joinDot (p :: ps) := by
  cases ps <;> rfl

theorem joinDot_splitDot (cs : List Char) : joinDot (splitDot cs) = cs := by
  induction cs with
  | nil => rfl
  | cons c cs ih =>
    rcases h : splitDot cs with _ | ⟨p0, ps0⟩
    · exact absurd h (splitDot_ne_nil cs)
    · by_cases hc : c = '.'
      · subst hc
        have hs : splitDot ('.' :: cs) = [] :: p0 :: ps0 := by
          simp [splitDot, h]
        rw [hs]
        have h2 : joinDot ([] :: p0 :: ps0) = '.' :: joinDot (p0 :: ps0) := rfl
        rw [h2, ← h, ih]
      · have hs : splitDot (c :: cs) = (c :: p0) :: ps0 := by
          simp [splitDot, h, hc]
        rw [hs, joinDot_cons_cons, ← h, ih]

theorem splitDot_no_dot (p : List Char) (h : '.' ∉ p) : splitDot p = [p] := by
  induction p with
  | nil => rfl
  | cons c p ih =>
    have hc : ¬ c = '.' := fun hcc => h (hcc ▸ List.mem_cons_self c p)
    have hp : '.' ∉ p := fun hm => h (List.mem_cons_of_mem c hm)
    simp [splitDot, ih hp, hc]

theorem splitDot_append_dot (p : List Char) (cs : List Char) (h : '.' ∉ p) :
    splitDot (p ++ '.' :: cs) = p :: splitDot cs := by
  induction p with
  | nil => simp [splitDot]
  | cons c p ih =>
    have hc : ¬ c = '.' := fun hcc => h (hcc ▸ List.mem_cons_self c p)
    have hp : '.' ∉ p := fun hm => h (List.mem_cons_of_mem c hm)
    simp [splitDot, ih hp, hc]

theorem splitDot_joinDot (l : List (List Char)) (hne : l ≠ [])
    (h : ∀ p ∈ l, '.' ∉ p) : splitDot (joinDot l) = l := by
  induction l with
  | nil => exact absurd rfl hne
  | cons p ps ih =>
    cases ps with
    | nil =>
      show splitDot (joinDot [p]) = [p]
      exact splitDot_no_dot p (h p (List.mem_cons_self p []))
    | cons q qs =>
      have hjoin : joinDot (p :: q :: qs) = p ++ '.' :: joinDot (q :: qs) := rfl
      rw [hjoin, splitDot_append_dot p _ (h p (List.mem_cons_self p _)),
        ih (by simp) (fun r hr => h r (List.mem_cons_of_mem p hr))]

theorem dot_not_mem_mkvPart (p : List Char) (h : '.' ∉ p) : '.' ∉ mkvPart p := by
  unfold mkvPart
  split
  · decide
  · exact h

theorem mkvPart_mkvPart (p : List Char) : mkvPart (mkvPart p) = mkvPart p := by
  unfold mkvPart
  split
  · decide
  · rfl

theorem data_get_mkv_filename (s : String) :
    (get_mkv_filename s).data = joinDot ((splitDot s.data).map mkvPart) := rfl

theorem splitDot_data_get_mkv_filename (s : String) :
    splitDot (get_mkv_filename s).data = (splitDot s.data).map mkvPart := by
  rw [data_get_mkv_filename]
  refine splitDot_joinDot _ ?_ ?_
  · intro hnil
    exact splitDot_ne_nil s.data (List.map_eq_nil_iff.mp hnil)
  · intro p hp
    rcases List.mem_map.mp hp with ⟨q, hq, rfl⟩
    exact dot_not_mem_mkvPart q (not_dot_mem_splitDot s.data q hq)

/-- C9: `get_mkv_filename` is idempotent, is the identity on filenames with
no dot-delimited segment equal to `mp4` or `m4v`, and preserves the number
of dot-delimited segments. -/
theorem get_mkv_filename_idem_id_segments (s : String) :
    get_mkv_filename (get_mkv_filename s) = get_mkv_filename s
    ∧ ((∀ p ∈ splitDot s.data, ¬ (p = ("mp4").data ∨ p = ("m4v").data)) →
        get_mkv_filename s = s)
    ∧ (splitDot (get_mkv_filename s).data).length = (splitDot s.data).length := by
  refine ⟨?_, ?_, ?_⟩
  · show String.mk (joinDot ((splitDot (get_mkv_filename s).data).map mkvPart))
        = get_mkv_filename s
    rw [splitDot_data_get_mkv_filename, List.map_map]
    have : (splitDot s.data).map (mkvPart ∘ mkvPart) = (splitDot s.data).map mkvPart :=
      List.map_congr_left (fun p _ => mkvPart_mkvPart p)
    rw [this]
    rfl
  · intro h
    have : (splitDot s.data).map mkvPart = splitDot s.data := by
      have := List.map_congr_left (l := splitDot s.data) (f := mkvPart) (g := id)
        (fun p hp => by unfold mkvPart; rw [if_neg (h p hp)]; rfl)
      rw [this, List.map_id]
    show String.mk (joinDot ((splitDot s.data).map mkvPart)) = s
    rw [this, joinDot_splitDot]
  · rw [splitDot_data_get_mkv_filename, List.length_map]

/-! ## Errors (src/errors.rs) and the transport/filesystem model -/

/-- A `reqwest::Error`, abstracted to the one observable the code inspects:
`Error::status()`, the optional HTTP status code (present for
`error_for_status` failures, absent for pure transport failures). -/
structure ReqwestErr where
  status : Option Nat
deriving DecidableEq, Repr

/-- Models `enum KemonoError` from src/errors.rs. -/
inductive KemonoError where
  | Reqwest (err : ReqwestErr)
  | Generic (msg : String)
  | SerdeJson (msg : String)
  | RateLimited
  | GetPostsError (msg : String)
deriving DecidableEq, Repr

/-- The filesystem: a map from path strings to file contents;
`none` means the path does not exist. -/
def FS : Type := String → Option String

/-- The network: a GET of a URL yields either the response body or a
`reqwest` error (`error_for_status` already folded in, so a non-2xx
response appears as `ReqwestErr` with its status code). -/
def Net : Type := String → Except ReqwestErr String

/-- Overwrite one path of the filesystem. -/
def fsUpdate (fs : FS) (p : String) (v : Option String) : FS :=
  fun q => if q = p then v else fs q

/-- Apply a list of (path, contents) writes to the filesystem. -/
def applyWrites (fs : FS) (ws : List (String × String)) : FS :=
  ws.foldl (fun acc w => fsUpdate acc w.1 (some w.2)) fs

/-- The CLI options consumed by the download pipeline
(`struct CliOpts`, src/main.rs); `service`/`creator` are the values of
`CliOpts::service()` / `CliOpts::creator()` (empty for an unfiltered
`update`). -/
structure CliOpts where
  hostname : String
  threads : Nat
  username : Option String
  password : Option String
  debug : Bool
  mkvs : Bool
  filename : Option String
  service : String
  creator : String
deriving DecidableEq, Repr

/-! ## `download_content` (src/main.rs) -/

/-- Models `ap.starts_with('/')`. -/
def startsWithSlash (s : String) : Bool :=
  match s.data with
  | [] => false
  | c :: _ => c = '/'

/-- Models `post.published.replace(':', "-")`. -/
def replaceColons (s : String) : String :=
  String.mk (s.data.map (fun c => if c = ':' then '-' else c))

/-- The destination filename `<published, colon→dash>-<name>`. -/
def download_filename (post : Post) (name : String) : String :=
  replaceColons post.published ++ "-" ++ name

/-- The canonical destination path of an attachment with display name
`name`: `get_download_path`/`download_filename`. -/
def canonicalPath (cli : CliOpts) (client : KemonoClient) (post : Post) (name : String) : String :=
  client.get_download_path cli.service cli.creator ++ "/" ++ download_filename post name

/-- The substituted sibling path consulted in `--mkvs` mode:
`get_download_path`/`get_mkv_filename(download_filename)`. -/
def mkvSiblingPath (cli : CliOpts) (client : KemonoClient) (post : Post) (name : String) : String :=
  client.get_download_path cli.service cli.creator ++ "/"
    ++ get_mkv_filename (download_filename post name)

deriving instance DecidableEq for Except

/-- The observable behaviour of one `download_content` call: its returned
`Result`, the URLs it issued GETs for, and the files it wrote. -/
structure DlTrace where
  result : Except KemonoError Unit
  gets : List String
  writes : List (String × String)
deriving DecidableEq, Repr

/-- Models `download_content` from src/main.rs (the debug-format payloads
of the two `format!` error messages are elided).  Checks name then path,
normalizes the path to a leading slash, short-circuits on the canonical
destination, then (in `--mkvs` mode) on the substituted sibling, and
otherwise GETs `https://<hostname><path>` and writes the body to the
canonical destination. -/
def download_content (cli : CliOpts) (client : KemonoClient) (net : Net) (fs : FS)
    (post : Post) (attachment : Attachment) : DlTrace :=
  match attachment.name, attachment.path with
  | none, _ => ⟨.error (.Generic ("Attachment has no name!")), [], []⟩
  | some _, none => ⟨.error (.Generic ("Attachment has no path!")), [], []⟩
  | some name, some ap =>
    let attachment_path := if startsWithSlash ap then ap else "/" ++ ap
    let dlpath := canonicalPath cli client post name
    if (fs dlpath).isSome then ⟨.ok (), [], []⟩
    else if cli.mkvs && (fs (mkvSiblingPath cli client post name)).isSome then
      ⟨.ok (), [], []⟩
    else
      let url := "https://" ++ client.hostname ++ attachment_path
      match net url with
      | .error e => ⟨.error (.Reqwest e), [url], []⟩
      | .ok data => ⟨.ok (), [url], [(dlpath, data)]⟩

/-! ## `do_download` (src/main.rs): metadata pass, extraction, scheduling -/

/-- The post metadata path `<get_download_path>/metadata/<post-id>.json`. -/
def metadataPath (cli : CliOpts) (client : KemonoClient) (post : Post) : String :=
  client.get_download_path cli.service cli.creator ++ "/metadata/" ++ post.id ++ ".json"

/-- The create-if-absent metadata write for one post (`ser` is
`serde_json::to_string_pretty`). -/
def writeMetadata (ser : Post → String) (cli : CliOpts) (client : KemonoClient)
    (fs : FS) (post : Post) : FS :=
  let p := metadataPath cli client post
  if (fs p).isSome then fs else fsUpdate fs p (some (ser post))

/-- The task pushed for a post's primary `file`: included iff both name
and path are present. -/
def primaryTasks (post : Post) : List (Post × Attachment) :=
  if post.file.name.isSome ∧ post.file.path.isSome then [(post, post.file)] else []

/-- The tasks pushed for a post's additional attachments: every element of
the (deduplicated) set, with no name/path filtering. -/
def attachmentTasks (post : Post) : List (Post × Attachment) :=
  match post.attachments with
  | none => []
  | some atts => atts.map (fun a => (post, a))

/-- All download tasks extracted from one post. -/
def extractTasks (post : Post) : List (Post × Attachment) :=
  primaryTasks post ++ attachmentTasks post

/-- The per-post loop at the top of `do_download`: write each post's
metadata file if absent and collect the download tasks, in post order. -/
def processPosts (ser : Post → String) (cli : CliOpts) (client : KemonoClient) :
    FS → List Post → FS × List (Post × Attachment)
  | fs, [] => (fs, [])
  | fs, post :: rest =>
    let fs1 := writeMetadata ser cli client fs post
    let r := processPosts ser cli client fs1 rest
    (r.1, extractTasks post ++ r.2)

/-- Models `filter.contains(&name)` on Rust strings (substring test). -/
def strContains (hay pat : String) : Bool :=
  decide (pat.data <:+: hay.data)

/-- The observable behaviour of one scheduled task (the closure passed to
`par_iter().map(...)` in `do_download`): the closure's returned `Result`,
whether the name filter silently skipped it, whether a failure was logged
for it (`error!`), and the `download_content` trace when it ran. -/
structure TaskReport where
  outcome : Except KemonoError Unit
  filtered : Bool
  reported : Bool
  trace : Option DlTrace
deriving DecidableEq, Repr

/-- The name-filter decision at the top of the per-task closure: skip
only when a filter is supplied and the attachment has a name and that
name does not contain the filter substring. -/
def filterSkips (filename : Option String) (name : Option String) : Bool :=
  match filename, name with
  | some f, some n => !(strContains n f)
  | _, _ => false

/-- Models the per-task closure in `do_download`: the optional
name-substring filter (consulted only when the attachment has a name),
then `download_content`, then error classification — a `reqwest` error
with status 429 becomes the batch-fatal `RateLimited`, a `reqwest` error
with any other status is silently swallowed (the source's
`if let Some(status_code)` has no non-429 logging arm), a status-less
`reqwest` error and every other error kind are logged and swallowed. -/
def taskOutcome (cli : CliOpts) (client : KemonoClient) (net : Net) (fs : FS)
    (task : Post × Attachment) : TaskReport :=
  if filterSkips cli.filename task.2.name then ⟨.ok (), true, false, none⟩
  else
    let tr := download_content cli client net fs task.1 task.2
    match tr.result with
    | .ok _ => ⟨.ok (), false, false, some tr⟩
    | .error e =>
      match e with
      | .Reqwest re =>
        match re.status with
        | some code =>
          if code = 429 then ⟨.error .RateLimited, false, true, some tr⟩
          else ⟨.ok (), false, false, some tr⟩
        | none => ⟨.ok (), false, true, some tr⟩
      | _ => ⟨.ok (), false, true, some tr⟩

/-- The scheduled batch, linearized in task order: each task observes the
filesystem left by the previous tasks' writes.  Returns the reports and
the final filesystem. -/
def runBatch (cli : CliOpts) (client : KemonoClient) (net : Net) :
    FS → List (Post × Attachment) → List TaskReport × FS
  | fs, [] => ([], fs)
  | fs, t :: ts =>
    let r := taskOutcome cli client net fs t
    let fs1 := match r.trace with
      | none => fs
      | some tr => applyWrites fs tr.writes
    let rest := runBatch cli client net fs1 ts
    (r :: rest.1, rest.2)

/-- Models `res.collect::<Result<Vec<_>, _>>()`: the first per-task error,
if any, fails the whole batch. -/
def collectBatch : List TaskReport → Except KemonoError Unit
  | [] => .ok ()
  | r :: rs =>
    match r.outcome with
    | .error e => .error e
    | .ok _ => collectBatch rs

/-- The observable behaviour of one `do_download` run. -/
structure DownloadRun where
  result : Except KemonoError Unit
  fs : FS
  reports : List TaskReport

/-- Models `do_download` from src/main.rs: the metadata/extraction pass
over all posts followed by the scheduled batch of download tasks. -/
def do_download (ser : Post → String) (cli : CliOpts) (client : KemonoClient)
    (net : Net) (fs : FS) (posts : List Post) : DownloadRun :=
  let pm := processPosts ser cli client fs posts
  let rb := runBatch cli client net pm.1 pm.2
  ⟨collectBatch rb.1, rb.2, rb.1⟩

/-! ## `all_posts` (src/lib.rs)

The page fetcher `self.posts(service, creator, None, Some(offset))` is
abstracted as a function from the offset to the returned page (the claim
concerns the successful pagination loop).  The loop is given fuel; `none`
means the fuel was exhausted before an empty page was seen.  The result
carries the number of fetch calls made. -/

def all_posts_loop (client : KemonoClient) (fetch : Nat → List Post) :
    Nat → Nat → List Post → Nat → Option (List Post × Nat)
  | 0, _, _, _ => none
  | fuel + 1, offset, acc, calls =>
    let res := fetch offset
    if res = [] then some (acc, calls + 1)
    else all_posts_loop client fetch fuel (offset + client.max_per_page) (acc ++ res) (calls + 1)

/-- Models `KemonoClient::all_posts`: loop from offset 0, extending the
accumulated posts with each non-empty page and advancing the offset by
`max_per_page`, stopping at the first empty page. -/
def all_posts (client : KemonoClient) (fetch : Nat → List Post) (fuel : Nat) :
    Option (List Post × Nat) :=
  all_posts_loop client fetch fuel 0 [] 0

/-! ## `do_update` (src/main.rs)

The download root is modelled as the list of directory entries
`read_dir` yields: each creator entry has a name, an is-directory flag and
its own child entries. -/

structure ServiceEntry where
  name : String
  isDir : Bool
deriving DecidableEq, Repr

structure CreatorEntry where
  name : String
  isDir : Bool
  services : List ServiceEntry
deriving DecidableEq, Repr

/-- The observable behaviour of `do_update`: the (creator, service) pairs
for which `do_download` is invoked, in order, and the skip warnings
printed to the error stream. -/
structure UpdateRun where
  processed : List (String × String)
  warnings : List String
deriving DecidableEq, Repr

/-- The body of the inner `for service in creator.path().read_dir()` loop
of `do_update`: a non-directory entry is skipped with a warning, an entry
failing a non-empty service filter is skipped silently, and every other
entry has the download pipeline run for (creator, service). -/
def updateServiceStep (serviceFilter creatorName : String)
    (acc : UpdateRun) (service : ServiceEntry) : UpdateRun :=
  if ¬ service.isDir then
    { acc with warnings := acc.warnings ++ ["Skipping service " ++ service.name] }
  else if serviceFilter ≠ "" ∧ serviceFilter ≠ service.name then acc
  else { acc with processed := acc.processed ++ [(creatorName, service.name)] }

/-- The body of the outer `for creator in base_path.read_dir()` loop of
`do_update`: entries failing a non-empty creator filter are skipped
(before the directory test), non-directory entries are skipped silently
(the `if creator.path().is_dir()` has no `else` arm), and directory
entries have their children walked as services. -/
def updateCreatorStep (creatorFilter serviceFilter : String)
    (acc : UpdateRun) (creator : CreatorEntry) : UpdateRun :=
  if creatorFilter ≠ "" ∧ creator.name ≠ creatorFilter then acc
  else if creator.isDir then
    creator.services.foldl (updateServiceStep serviceFilter creator.name) acc
  else acc

/-- Models `do_update` from src/main.rs. -/
def do_update (creatorFilter serviceFilter : String) (root : List CreatorEntry) : UpdateRun :=
  root.foldl (updateCreatorStep creatorFilter serviceFilter) ⟨[], []⟩

/-! ## Theorems: pagination (C1) -/

theorem flatMap_congr {α β : Type} (l : List α) (f g : α → List β)
    (h : ∀ a ∈ l, f a = g a) : l.flatMap f = l.flatMap g := by
  induction l with
  | nil => rfl
  | cons x xs ih =>
    simp only [List.flatMap_cons, h x (List.mem_cons_self x xs),
      ih (fun a ha => h a (List.mem_cons_of_mem x ha))]

theorem all_posts_loop_spec (client : KemonoClient) (fetch : Nat → List Post) :
    ∀ (k fuel j : Nat) (acc : List Post) (calls : Nat), k < fuel →
      (∀ i, i < k → fetch ((j + i) * 50) ≠ []) →
      fetch ((j + k) * 50) = [] →
      all_posts_loop client fetch fuel (j * 50) acc calls
        = some (acc ++ (List.range k).flatMap (fun i => fetch ((j + i) * 50)), calls + (k + 1)) := by
  intro k
  induction k with
  | zero =>
    intro fuel j acc calls hf _ hemp
    match fuel, hf with
    | fuel + 1, _ =>
      simp only [Nat.add_zero] at hemp
      simp [all_posts_loop, hemp]
  | succ k ih =>
    intro fuel j acc calls hf hne hemp
    cases fuel with
    | zero => exact absurd hf (by omega)
    | succ fuel =>
      have h0 : fetch (j * 50) ≠ [] := by
        have := hne 0 (Nat.succ_pos k)
        simpa using this
      have hstep : all_posts_loop client fetch (fuel + 1) (j * 50) acc calls
          = all_posts_loop client fetch fuel (j * 50 + client.max_per_page)
              (acc ++ fetch (j * 50)) (calls + 1) := by
        simp [all_posts_loop, h0]
      have hoff : j * 50 + client.max_per_page = (j + 1) * 50 := by
        simp [KemonoClient.max_per_page]; ring
      have hne' : ∀ i, i < k → fetch ((j + 1 + i) * 50) ≠ [] := by
        intro i hi
        have := hne (i + 1) (by omega)
        rwa [show j + (i + 1) = j + 1 + i by omega] at this
      have hemp' : fetch ((j + 1 + k) * 50) = [] := by
        rwa [show j + (k + 1) = j + 1 + k by omega] at hemp
      have hrec := ih fuel (j + 1) (acc ++ fetch (j * 50)) (calls + 1)
        (by omega) hne' hemp'
      rw [hstep, hoff, hrec]
      have hsplit : (List.range (k + 1)).flatMap (fun i => fetch ((j + i) * 50))
          = fetch (j * 50) ++ (List.range k).flatMap (fun i => fetch ((j + 1 + i) * 50)) := by
        rw [List.range_succ_eq_map, List.flatMap_cons]
        have hmm : (List.map Nat.succ (List.range k)).flatMap (fun i => fetch ((j + i) * 50))
            = (List.range k).flatMap (fun i => fetch ((j + 1 + i) * 50)) := by
          induction (List.range k) with
          | nil => rfl
          | cons x xs ih2 =>
            simp only [List.map_cons, List.flatMap_cons, ih2]
            rw [show j + Nat.succ x = j + 1 + x by omega]
        rw [hmm]
        simp
      rw [hsplit]
      simp only [List.append_assoc]
      have hcalls : calls + 1 + (k + 1) = calls + (k + 1 + 1) := by omega
      rw [hcalls]

/-- C1: `all_posts` returns the page-by-page concatenation of the pages
fetched at offsets 0, 50, 100, ... (the offset advancing by the fixed page
size 50 after every non-empty page), stops at the first empty page having
made exactly `k + 1` fetch calls, and its result only depends on the
fetcher at those `k + 1` offsets — no further call is issued. -/
theorem all_posts_pagination (client : KemonoClient) (fetch : Nat → List Post)
    (k fuel : Nat) (hfuel : k < fuel)
    (hne : ∀ i, i < k → fetch (i * 50) ≠ [])
    (hemp : fetch (k * 50) = []) :
    all_posts client fetch fuel
      = some ((List.range k).flatMap (fun i => fetch (i * 50)), k + 1)
    ∧ ∀ fetch2 : Nat → List Post, (∀ i, i ≤ k → fetch2 (i * 50) = fetch (i * 50)) →
        all_posts client fetch2 fuel = all_posts client fetch fuel := by
  have base : ∀ f : Nat → List Post, (∀ i, i < k → f (i * 50) ≠ []) → f (k * 50) = [] →
      all_posts client f fuel
        = some ((List.range k).flatMap (fun i => f (i * 50)), k + 1) := by
    intro f hne' hemp'
    have h := all_posts_loop_spec client f k fuel 0 [] 0 hfuel
      (by simpa using hne') (by simpa using hemp')
    have h0 : all_posts client f fuel = all_posts_loop client f fuel (0 * 50) [] 0 := rfl
    rw [h0, h]
    simp
  refine ⟨base fetch hne hemp, ?_⟩
  intro fetch2 hagree
  rw [base fetch hne hemp, base fetch2
    (fun i hi => (hagree i (Nat.le_of_lt hi)) ▸ hne i hi)
    ((hagree k (Nat.le_refl k)) ▸ hemp)]
  congr 1
  congr 1
  exact flatMap_congr _ _ _
    (fun i hi => hagree i (Nat.le_of_lt (List.mem_range.mp hi)))

/-! ## Concrete sample inputs (shared by witnesses and counterexamples) -/

/-- A client pointed at an example host with the default download root. -/
def client0 : KemonoClient := ⟨"example.com", none⟩

/-- Plain CLI options: no `--mkvs`, no name filter. -/
def cli0 : CliOpts :=
  { hostname := "example.com", threads := 2, username := none, password := none,
    debug := false, mkvs := false, filename := none,
    service := "svc", creator := "alice" }

/-- `cli0` with `--mkvs` enabled. -/
def cliMkv : CliOpts := { cli0 with mkvs := true }

/-- `cli0` with name filter `abc`. -/
def cliF : CliOpts := { cli0 with filename := some ("abc") }

/-- A sample post with no attachments at all. -/
def post0 : Post :=
  { id := "p1", user := "alice", service := "svc", title := "t", content := none,
    embed := "null", shared_file := none, file := ⟨none, none⟩,
    added := "2023-01-02T00:00:00", published := "2023-01-01T00:00:00",
    edited := none, poll := none, captions := none, tags := none, attachments := none }

/-- An attachment with a name but no path. -/
def attNoPath : Attachment := ⟨some ("a.txt"), none⟩

/-- A fully-formed attachment. -/
def attOk : Attachment := ⟨some ("a.txt"), some ("/data/a.txt")⟩

/-- The empty filesystem. -/
def fsEmpty : FS := fun _ => none

/-- A network where every GET succeeds. -/
def net0 : Net := fun _ => .ok ("body")

/-- A network where every GET fails with HTTP status 500. -/
def net500 : Net := fun _ => .error ⟨some 500⟩

/-- A network where every GET fails with HTTP status 429. -/
def net429 : Net := fun _ => .error ⟨some 429⟩

/-- A synthetic page fetcher with page sizes 50, 50, 13 at offsets
0, 50, 100 and empty pages everywhere else. -/
def synthFetch : Nat → List Post := fun o =>
  if o = 0 then List.replicate 50 post0
  else if o = 50 then List.replicate 50 post0
  else if o = 100 then List.replicate 13 post0
  else []

/-- C1 witness: for the synthetic fetcher with page sizes [50, 50, 13, 0],
`all_posts` returns exactly 113 posts after exactly 4 fetch calls. -/
theorem all_posts_pagination_witness :
    all_posts client0 synthFetch 10 = some (List.replicate 113 post0, 4) := by
  have h := (all_posts_pagination client0 synthFetch 3 10 (by omega)
    (fun i hi => by interval_cases i <;> decide)
    (by decide)).1
  rw [h]
  rfl

/-! ## `download_content` branch characterizations -/

theorem download_content_no_name (cli : CliOpts) (client : KemonoClient) (net : Net)
    (fs : FS) (post : Post) (p : Option String) :
    download_content cli client net fs post ⟨none, p⟩
      = ⟨.error (.Generic ("Attachment has no name!")), [], []⟩ := rfl

theorem download_content_no_path (cli : CliOpts) (client : KemonoClient) (net : Net)
    (fs : FS) (post : Post) (n : String) :
    download_content cli client net fs post ⟨some n, none⟩
      = ⟨.error (.Generic ("Attachment has no path!")), [], []⟩ := rfl

theorem download_content_exists (cli : CliOpts) (client : KemonoClient) (net : Net)
    (fs : FS) (post : Post) (name ap : String)
    (hex : (fs (canonicalPath cli client post name)).isSome = true) :
    download_content cli client net fs post ⟨some name, some ap⟩ = ⟨.ok (), [], []⟩ := by
  simp [download_content, hex]

theorem download_content_mkv (cli : CliOpts) (client : KemonoClient) (net : Net)
    (fs : FS) (post : Post) (name ap : String)
    (hex : (fs (canonicalPath cli client post name)).isSome = false)
    (hmkv : (cli.mkvs && (fs (mkvSiblingPath cli client post name)).isSome) = true) :
    download_content cli client net fs post ⟨some name, some ap⟩ = ⟨.ok (), [], []⟩ := by
  simp [download_content, hex, hmkv]

theorem download_content_fetch (cli : CliOpts) (client : KemonoClient) (net : Net)
    (fs : FS) (post : Post) (name ap : String)
    (hex : (fs (canonicalPath cli client post name)).isSome = false)
    (hmkv : (cli.mkvs && (fs (mkvSiblingPath cli client post name)).isSome) = false) :
    download_content cli client net fs post ⟨some name, some ap⟩
      = (let url := "https://" ++ client.hostname
            ++ (if startsWithSlash ap then ap else "/" ++ ap)
         match net url with
         | .error e => ⟨.error (.Reqwest e), [url], []⟩
         | .ok data => ⟨.ok (), [url], [(canonicalPath cli client post name, data)]⟩) := by
  simp [download_content, hex, hmkv]

/-! ## Theorems: existence-based idempotence (C2) -/

/-- C2 (amended): a download task whose attachment has both a name and a
path and whose canonical destination path already exists succeeds with no
GET and no write; and after any successful `download_content` call,
re-running it on the resulting filesystem succeeds with no GET and no
write — so a second `download` run performs zero attachment GETs for
every task the first run completed. -/
theorem download_content_idempotent (cli : CliOpts) (client : KemonoClient) (net : Net)
    (fs : FS) (post : Post) (att : Attachment) :
    (∀ name, att.name = some name → att.path.isSome →
      (fs (canonicalPath cli client post name)).isSome →
      download_content cli client net fs post att = ⟨.ok (), [], []⟩)
    ∧ ((download_content cli client net fs post att).result = .ok () →
      download_content cli client net
          (applyWrites fs (download_content cli client net fs post att).writes) post att
        = ⟨.ok (), [], []⟩) := by
  obtain ⟨n0, p0⟩ := att
  constructor
  · intro name hn hp hex
    cases hn
    cases p0 with
    | none => simp at hp
    | some ap => exact download_content_exists cli client net fs post name ap hex
  · intro hok
    cases n0 with
    | none => rw [download_content_no_name] at hok; simp at hok
    | some name =>
      cases p0 with
      | none => rw [download_content_no_path] at hok; simp at hok
      | some ap =>
        by_cases hex : (fs (canonicalPath cli client post name)).isSome = true
        · rw [download_content_exists cli client net fs post name ap hex]
          exact download_content_exists cli client net _ post name ap hex
        · rw [Bool.not_eq_true] at hex
          by_cases hmkv : (cli.mkvs && (fs (mkvSiblingPath cli client post name)).isSome) = true
          · rw [download_content_mkv cli client net fs post name ap hex hmkv]
            exact download_content_mkv cli client net _ post name ap hex hmkv
          · rw [Bool.not_eq_true] at hmkv
            rw [download_content_fetch cli client net fs post name ap hex hmkv] at hok ⊢
            simp only at hok ⊢
            rcases hnet : net ("https://" ++ client.hostname
                ++ (if startsWithSlash ap then ap else "/" ++ ap)) with e | data
            · rw [hnet] at hok; simp at hok
            · apply download_content_exists
              simp [applyWrites, fsUpdate]

/-- C2 counterexample: a task whose attachment has a name but no path,
while its canonical destination path exists on disk: `download_content`
returns the missing-path error, not success (the name/path validation
precedes the existence check). -/
def fsC2 : FS :=
  fsUpdate fsEmpty (canonicalPath cli0 client0 post0 ("a.txt")) (some ("contents"))

theorem download_content_exists_but_no_path_fails :
    (fsC2 (canonicalPath cli0 client0 post0 ("a.txt"))).isSome = true
    ∧ (download_content cli0 client0 net0 fsC2 post0 attNoPath).result
        = .error (.Generic ("Attachment has no path!"))
    ∧ (download_content cli0 client0 net0 fsC2 post0 attNoPath).result ≠ .ok () := by
  refine ⟨by simp [fsC2, fsUpdate], ?_, ?_⟩
  · rw [show attNoPath = (⟨some ("a.txt"), none⟩ : Attachment) from rfl,
      download_content_no_path]
  · rw [show attNoPath = (⟨some ("a.txt"), none⟩ : Attachment) from rfl,
      download_content_no_path]
    simp

/-- C2 witness: at a concrete task, the canonical-path short-circuit and
the free second run. -/
theorem download_content_idempotent_witness :
    download_content cli0 client0 net0 fsC2 post0 attOk = ⟨.ok (), [], []⟩
    ∧ download_content cli0 client0 net0
        (applyWrites fsEmpty (download_content cli0 client0 net0 fsEmpty post0 attOk).writes)
        post0 attOk
      = ⟨.ok (), [], []⟩ := by
  refine ⟨(download_content_idempotent cli0 client0 net0 fsC2 post0 attOk).1
      ("a.txt") rfl (by decide) (by simp [fsC2, fsUpdate]), ?_⟩
  exact (download_content_idempotent cli0 client0 net0 fsEmpty post0 attOk).2 rfl

/-! ## Theorems: format-substitution resume (C4) -/

/-- C4 (amended): for a task whose attachment has both a name and a path
and whose canonical destination does not exist, in `--mkvs` mode the task
is satisfied (success, no GET, no write) **iff** the substituted sibling
(the canonical name with every `mp4`/`m4v` dot-segment replaced by `mkv`)
exists; with the mode disabled the sibling is never consulted — changing
the filesystem at the sibling path does not change the call's behaviour. -/
theorem download_content_mkv_policy (cli : CliOpts) (client : KemonoClient) (net : Net)
    (fs : FS) (post : Post) (att : Attachment) (name : String)
    (hn : att.name = some name) (hp : att.path.isSome)
    (hmiss : fs (canonicalPath cli client post name) = none)
    (hne : mkvSiblingPath cli client post name ≠ canonicalPath cli client post name) :
    (cli.mkvs = true →
      (download_content cli client net fs post att = ⟨.ok (), [], []⟩
        ↔ (fs (mkvSiblingPath cli client post name)).isSome))
    ∧ (cli.mkvs = false → ∀ v,
      download_content cli client net
          (fsUpdate fs (mkvSiblingPath cli client post name) v) post att
        = download_content cli client net fs post att) := by
  obtain ⟨n0, p0⟩ := att
  cases hn
  cases p0 with
  | none => simp at hp
  | some ap =>
    have hex : (fs (canonicalPath cli client post name)).isSome = false := by
      rw [hmiss]; rfl
    constructor
    · intro hm
      constructor
      · intro heq
        by_contra hsib
        rw [Bool.not_eq_true] at hsib
        have hmkv : (cli.mkvs && (fs (mkvSiblingPath cli client post name)).isSome) = false := by
          simp [hsib]
        rw [download_content_fetch cli client net fs post name ap hex hmkv] at heq
        simp only at heq
        rcases hnet : net ("https://" ++ client.hostname
            ++ (if startsWithSlash ap then ap else "/" ++ ap)) with e | data
        · rw [hnet] at heq; simp at heq
        · rw [hnet] at heq; simp at heq
      · intro hsib
        exact download_content_mkv cli client net fs post name ap hex (by simp [hm, hsib])
    · intro hm v
      have hcanon : (fsUpdate fs (mkvSiblingPath cli client post name) v)
          (canonicalPath cli client post name) = fs (canonicalPath cli client post name) := by
        unfold fsUpdate
        rw [if_neg (fun hcc => hne hcc.symm)]
      have hex2 : ((fsUpdate fs (mkvSiblingPath cli client post name) v)
          (canonicalPath cli client post name)).isSome = false := by
        rw [hcanon, hmiss]; rfl
      have hmkv2 : ∀ g : FS, (cli.mkvs && (g (mkvSiblingPath cli client post name)).isSome) = false := by
        intro g; simp [hm]
      rw [download_content_fetch cli client net _ post name ap hex2 (hmkv2 _),
        download_content_fetch cli client net fs post name ap hex (hmkv2 _)]

/-- C4 counterexample input: `--mkvs` enabled, the canonical name is
`2023-01-01T00-00-00-video.mp4`, the substituted sibling
`2023-01-01T00-00-00-video.mkv` exists on disk, but the attachment has no
path. -/
def postVid : Post := { post0 with id := "p2" }

def attVidNoPath : Attachment := ⟨some ("video.mp4"), none⟩

def attVid : Attachment := ⟨some ("video.mp4"), some ("/data/video.mp4")⟩

def fsC4 : FS :=
  fsUpdate fsEmpty (mkvSiblingPath cliMkv client0 postVid ("video.mp4")) (some ("reencoded"))

/-- C4 counterexample: with the re-encode mode enabled, the canonical
destination absent and the substituted `mkv` sibling present, a task with
a missing path is *not* treated as satisfied — `download_content` errors —
refuting the claimed "if and only if" over every download task. -/
theorem mkv_sibling_exists_but_no_path_fails :
    cliMkv.mkvs = true
    ∧ (fsC4 (mkvSiblingPath cliMkv client0 postVid ("video.mp4"))).isSome = true
    ∧ fsC4 (canonicalPath cliMkv client0 postVid ("video.mp4")) = none
    ∧ (download_content cliMkv client0 net0 fsC4 postVid attVidNoPath).result
        = .error (.Generic ("Attachment has no path!")) := by
  refine ⟨rfl, by simp [fsC4, fsUpdate], by decide, ?_⟩
  rw [show attVidNoPath = (⟨some ("video.mp4"), none⟩ : Attachment) from rfl,
    download_content_no_path]

/-- C4 witness: the spec's concrete test — canonical name
`2023-01-01T00-00-00-video.mp4`, on-disk `2023-01-01T00-00-00-video.mkv`:
with `--mkvs` the oracle is satisfied iff the sibling exists (and it is),
without `--mkvs` the sibling file is invisible to the call. -/
theorem download_content_mkv_policy_witness :
    (download_content cliMkv client0 net0 fsC4 postVid attVid = ⟨.ok (), [], []⟩
      ↔ (fsC4 (mkvSiblingPath cliMkv client0 postVid ("video.mp4"))).isSome)
    ∧ download_content cli0 client0 net0 fsC4 postVid attVid
        = download_content cli0 client0 net0 fsEmpty postVid attVid := by
  constructor
  · exact (download_content_mkv_policy cliMkv client0 net0 fsC4 postVid attVid
      ("video.mp4") rfl (by decide) (by decide) (by decide)).1 rfl
  · have h := (download_content_mkv_policy cli0 client0 net0 fsEmpty postVid attVid
      ("video.mp4") rfl (by decide) rfl (by decide)).2 rfl (some ("reencoded"))
    calc download_content cli0 client0 net0 fsC4 postVid attVid
        = download_content cli0 client0 net0
            (fsUpdate fsEmpty (mkvSiblingPath cli0 client0 postVid ("video.mp4"))
              (some ("reencoded"))) postVid attVid := rfl
      _ = download_content cli0 client0 net0 fsEmpty postVid attVid := h

/-! ## Theorems: malformed attachments (C6), name filter (C10),
rate-limit classification (C3) -/

/-- C6: a task whose attachment lacks its name or its path:
`download_content` returns a Generic error having performed no GET and no
write; in the scheduled batch the error is caught per task (the closure
returns success and logs the failure), and prefixing such a task to any
batch leaves the sibling tasks' reports and the batch verdict unchanged. -/
theorem malformed_attachment_task_fatal_only (cli : CliOpts) (client : KemonoClient)
    (net : Net) (fs : FS) (post : Post) (att : Attachment)
    (hcli : cli.filename = none)
    (h : att.name = none ∨ att.path = none) :
    (∃ msg, (download_content cli client net fs post att).result = .error (.Generic msg))
    ∧ (download_content cli client net fs post att).gets = []
    ∧ (download_content cli client net fs post att).writes = []
    ∧ (taskOutcome cli client net fs (post, att)).outcome = .ok ()
    ∧ (taskOutcome cli client net fs (post, att)).reported = true
    ∧ ∀ rest, (runBatch cli client net fs ((post, att) :: rest)).1
          = taskOutcome cli client net fs (post, att) :: (runBatch cli client net fs rest).1
      ∧ collectBatch (runBatch cli client net fs ((post, att) :: rest)).1
          = collectBatch (runBatch cli client net fs rest).1 := by
  obtain ⟨n0, p0⟩ := att
  have hdc : ∃ msg, download_content cli client net fs post ⟨n0, p0⟩
      = ⟨.error (.Generic msg), [], []⟩ := by
    cases n0 with
    | none => exact ⟨_, download_content_no_name cli client net fs post p0⟩
    | some n =>
      rcases h with h | h
      · simp at h
      · simp only at h
        cases h
        exact ⟨_, download_content_no_path cli client net fs post n⟩
  obtain ⟨msg, hdc⟩ := hdc
  have hto : taskOutcome cli client net fs (post, ⟨n0, p0⟩)
      = ⟨.ok (), false, true, some (download_content cli client net fs post ⟨n0, p0⟩)⟩ := by
    cases n0 with
    | none => simp [taskOutcome, filterSkips, hcli, hdc]
    | some n => simp [taskOutcome, filterSkips, hcli, hdc]
  refine ⟨⟨msg, by rw [hdc]⟩, by rw [hdc], by rw [hdc], by rw [hto], by rw [hto], ?_⟩
  intro rest
  have hrb : runBatch cli client net fs ((post, (⟨n0, p0⟩ : Attachment)) :: rest)
      = ((taskOutcome cli client net fs (post, ⟨n0, p0⟩)) :: (runBatch cli client net fs rest).1,
        (runBatch cli client net fs rest).2) := by
    simp only [runBatch]
    rw [hto, hdc]
    simp [applyWrites]
  refine ⟨by rw [hrb], ?_⟩
  rw [hrb]
  simp only [collectBatch]
  rw [hto]

/-- C10: with a name-substring filter supplied, a task whose attachment
has no name is not excluded — it proceeds to `download_content` and fails
there with the missing-name error (logged, task-fatal only) — whereas a
task whose present name does not contain the filter substring is silently
skipped with no download attempted. -/
theorem name_filter_never_skips_nameless (cli : CliOpts) (client : KemonoClient)
    (net : Net) (fs : FS) (post : Post) (att : Attachment) (f : String)
    (hf : cli.filename = some f) :
    (att.name = none →
      taskOutcome cli client net fs (post, att)
        = ⟨.ok (), false, true, some (download_content cli client net fs post att)⟩
      ∧ (download_content cli client net fs post att).result
          = .error (.Generic ("Attachment has no name!")))
    ∧ (∀ n, att.name = some n → strContains n f = false →
      taskOutcome cli client net fs (post, att) = ⟨.ok (), true, false, none⟩) := by
  obtain ⟨n0, p0⟩ := att
  constructor
  · intro hn
    simp only at hn
    cases hn
    have hdc := download_content_no_name cli client net fs post p0
    constructor
    · simp [taskOutcome, filterSkips, hf, hdc]
    · rw [hdc]
  · intro n hn hcon
    simp only at hn
    cases hn
    simp [taskOutcome, filterSkips, hf, hcon]

/-- C3 exhibit of the code bug: a task whose GET fails with HTTP status
500 (any non-429 status): the closure returns success (the batch
continues, as the claim says) but `reported` is false — the source's
`if let Some(status_code)` has no logging arm for a present non-429
status, so the failure is silently swallowed, contradicting the claim
that every non-429 per-task failure is reported.  For contrast, a 429
yields the batch-fatal `RateLimited`, which `collect` surfaces. -/
theorem non429_status_error_swallowed :
    (download_content cli0 client0 net500 fsEmpty post0 attOk).result
        = .error (.Reqwest ⟨some 500⟩)
    ∧ (taskOutcome cli0 client0 net500 fsEmpty (post0, attOk)).outcome = .ok ()
    ∧ (taskOutcome cli0 client0 net500 fsEmpty (post0, attOk)).reported = false
    ∧ (taskOutcome cli0 client0 net429 fsEmpty (post0, attOk)).outcome = .error .RateLimited
    ∧ (taskOutcome cli0 client0 net429 fsEmpty (post0, attOk)).reported = true
    ∧ collectBatch (runBatch cli0 client0 net429 fsEmpty [(post0, attOk)]).1
        = .error .RateLimited := by
  decide

/-- C6 witness: the spec's test case — a name but no path — in a batch
next to a healthy sibling task. -/
theorem malformed_attachment_witness :
    (∃ msg, (download_content cli0 client0 net0 fsEmpty post0 attNoPath).result
        = .error (.Generic msg))
    ∧ (download_content cli0 client0 net0 fsEmpty post0 attNoPath).gets = []
    ∧ (download_content cli0 client0 net0 fsEmpty post0 attNoPath).writes = []
    ∧ (taskOutcome cli0 client0 net0 fsEmpty (post0, attNoPath)).outcome = .ok ()
    ∧ (taskOutcome cli0 client0 net0 fsEmpty (post0, attNoPath)).reported = true
    ∧ collectBatch (runBatch cli0 client0 net0 fsEmpty [(post0, attNoPath), (post0, attOk)]).1
        = collectBatch (runBatch cli0 client0 net0 fsEmpty [(post0, attOk)]).1 := by
  have h := malformed_attachment_task_fatal_only cli0 client0 net0 fsEmpty post0 attNoPath
    rfl (Or.inr rfl)
  exact ⟨h.1, h.2.1, h.2.2.1, h.2.2.2.1, h.2.2.2.2.1, (h.2.2.2.2.2 [(post0, attOk)]).2⟩

/-- A nameless attachment (with a path). -/
def attNoName : Attachment := ⟨none, some ("/x")⟩

/-- An attachment whose name does not contain the filter `abc`. -/
def attZzz : Attachment := ⟨some ("zzz.bin"), some ("/x")⟩

/-- C10 witness: under filter `abc`, the nameless task runs (and fails
with the missing-name error) while the non-matching named task is
silently skipped. -/
theorem name_filter_witness :
    taskOutcome cliF client0 net0 fsEmpty (post0, attNoName)
      = ⟨.ok (), false, true, some (download_content cliF client0 net0 fsEmpty post0 attNoName)⟩
    ∧ (download_content cliF client0 net0 fsEmpty post0 attNoName).result
        = .error (.Generic ("Attachment has no name!"))
    ∧ taskOutcome cliF client0 net0 fsEmpty (post0, attZzz) = ⟨.ok (), true, false, none⟩ := by
  have h1 := (name_filter_never_skips_nameless cliF client0 net0 fsEmpty post0 attNoName
    ("abc") rfl).1 rfl
  have h2 := (name_filter_never_skips_nameless cliF client0 net0 fsEmpty post0 attZzz
    ("abc") rfl).2 ("zzz.bin") rfl (by decide)
  exact ⟨h1.1, h1.2, h2⟩

/-! ## Theorems: attachment extraction and dedup (C5) -/

theorem hsInsert_nodup (a : Attachment) (s : List Attachment) (h : s.Nodup) :
    (hsInsert a s).Nodup := by
  unfold hsInsert
  split
  · exact h
  · rename_i hmem
    simp [List.nodup_append, h, hmem]

theorem mem_hsInsert (x a : Attachment) (s : List Attachment) :
    x ∈ hsInsert a s ↔ x ∈ s ∨ x = a := by
  unfold hsInsert
  split
  · rename_i hmem
    constructor
    · exact Or.inl
    · rintro (hx | rfl)
      · exact hx
      · exact hmem
  · simp

theorem hsFold_nodup (l : List Attachment) :
    ∀ acc : List Attachment, acc.Nodup →
      (l.foldl (fun s a => hsInsert a s) acc).Nodup := by
  induction l with
  | nil => intro acc h; exact h
  | cons a l ih =>
    intro acc h
    exact ih (hsInsert a acc) (hsInsert_nodup a acc h)

theorem mem_hsFold (l : List Attachment) :
    ∀ (acc : List Attachment) (x : Attachment),
      x ∈ l.foldl (fun s a => hsInsert a s) acc ↔ x ∈ acc ∨ x ∈ l := by
  induction l with
  | nil => intro acc x; simp
  | cons a l ih =>
    intro acc x
    rw [List.foldl_cons, ih, mem_hsInsert]
    constructor
    · rintro ((hx | rfl) | hx)
      · exact Or.inl hx
      · exact Or.inr (List.mem_cons_self _ l)
      · exact Or.inr (List.mem_cons_of_mem a hx)
    · rintro (hx | hx)
      · exact Or.inl (Or.inl hx)
      · rcases List.mem_cons.mp hx with rfl | hx
        · exact Or.inl (Or.inr rfl)
        · exact Or.inr hx

theorem hsOfList_nodup (l : List Attachment) : (hsOfList l).Nodup :=
  hsFold_nodup l [] List.nodup_nil

theorem mem_hsOfList (l : List Attachment) (x : Attachment) :
    x ∈ hsOfList l ↔ x ∈ l := by
  rw [hsOfList, mem_hsFold]
  simp

theorem count_pair_map (post : Post) (l : List Attachment) (a : Attachment) :
    List.count (post, a) (l.map (fun b => (post, b))) = List.count a l := by
  induction l with
  | nil => rfl
  | cons x xs ih =>
    by_cases hxa : x = a
    · subst hxa
      simp [List.count_cons, ih]
    · simp [List.count_cons, ih, hxa]

/-- C5: extraction produces a task for the primary file iff both its name
and its path are present; every element of the (deduplicated)
additional-attachments set yields exactly one task, with no name/path
filtering; and the extracted tasks are precisely primary ++ additional. -/
theorem extract_tasks_spec (post : Post) (atts : List Attachment)
    (hset : post.attachments = some (hsOfList atts)) (a : Attachment) (ha : a ∈ atts) :
    ((post, post.file) ∈ primaryTasks post ↔ (post.file.name.isSome ∧ post.file.path.isSome))
    ∧ (attachmentTasks post).count (post, a) = 1
    ∧ (∀ b ∈ hsOfList atts, (post, b) ∈ attachmentTasks post)
    ∧ extractTasks post = primaryTasks post ++ attachmentTasks post := by
  refine ⟨?_, ?_, ?_, rfl⟩
  · unfold primaryTasks
    split
    · rename_i hcond
      simp [hcond]
    · rename_i hcond
      simp only [List.not_mem_nil, false_iff]
      exact hcond
  · unfold attachmentTasks
    rw [hset]
    show List.count (post, a) (List.map (fun b => (post, b)) (hsOfList atts)) = 1
    rw [count_pair_map post (hsOfList atts) a]
    exact List.count_eq_one_of_mem (hsOfList_nodup atts) ((mem_hsOfList atts a).mpr ha)
  · intro b hb
    unfold attachmentTasks
    rw [hset]
    show (post, b) ∈ List.map (fun x => (post, x)) (hsOfList atts)
    exact List.mem_map.mpr ⟨b, hb, rfl⟩

/-- A post with a well-formed primary file and a duplicated additional
attachment (itself missing its path — included regardless). -/
def aDup : Attachment := ⟨some ("n.bin"), none⟩

def postDup : Post :=
  { post0 with
    id := "p3",
    file := ⟨some ("f.bin"), some ("/f.bin")⟩,
    attachments := some (hsOfList [aDup, aDup]) }

/-- C5 witness: the duplicated attachment collapses to a single task, the
primary file is included, and the set element (with no path) still yields
its task. -/
theorem extract_tasks_witness :
    ((postDup, postDup.file) ∈ primaryTasks postDup
      ↔ (postDup.file.name.isSome ∧ postDup.file.path.isSome))
    ∧ (attachmentTasks postDup).count (postDup, aDup) = 1
    ∧ (∀ b ∈ hsOfList [aDup, aDup], (postDup, b) ∈ attachmentTasks postDup)
    ∧ extractTasks postDup = primaryTasks postDup ++ attachmentTasks postDup := by
  exact extract_tasks_spec postDup [aDup, aDup] (by rfl) aDup (List.mem_cons_self aDup [aDup])

/-! ## Theorems: metadata write-once (C7) -/

theorem writeMetadata_preserves (ser : Post → String) (cli : CliOpts)
    (client : KemonoClient) (fs : FS) (post : Post) (p : String) (c : String)
    (h : fs p = some c) : writeMetadata ser cli client fs post p = some c := by
  unfold writeMetadata
  split
  · exact h
  · rename_i hnot
    unfold fsUpdate
    split
    · rename_i hp
      rw [← hp, h] at hnot
      simp at hnot
    · exact h

theorem writeMetadata_written (ser : Post → String) (cli : CliOpts)
    (client : KemonoClient) (fs : FS) (post : Post) :
    ((writeMetadata ser cli client fs post) (metadataPath cli client post)).isSome = true := by
  unfold writeMetadata
  split
  · rename_i hsome
    exact hsome
  · simp [fsUpdate]

theorem processPosts_preserves (ser : Post → String) (cli : CliOpts)
    (client : KemonoClient) (posts : List Post) :
    ∀ (fs : FS) (p : String) (c : String), fs p = some c →
      (processPosts ser cli client fs posts).1 p = some c := by
  induction posts with
  | nil => intro fs p c h; exact h
  | cons post rest ih =>
    intro fs p c h
    exact ih (writeMetadata ser cli client fs post) p c
      (writeMetadata_preserves ser cli client fs post p c h)

theorem processPosts_written (ser : Post → String) (cli : CliOpts)
    (client : KemonoClient) (posts : List Post) :
    ∀ (fs : FS) (post : Post), post ∈ posts →
      ((processPosts ser cli client fs posts).1 (metadataPath cli client post)).isSome = true := by
  induction posts with
  | nil => intro fs post h; simp at h
  | cons q rest ih =>
    intro fs post h
    rcases List.mem_cons.mp h with rfl | h
    · have h1 := writeMetadata_written ser cli client fs post
      rcases Option.isSome_iff_exists.mp h1 with ⟨c, hc⟩
      have h2 := processPosts_preserves ser cli client rest
        (writeMetadata ser cli client fs post) (metadataPath cli client post) c hc
      show ((processPosts ser cli client (writeMetadata ser cli client fs post) rest).1
        (metadataPath cli client post)).isSome = true
      rw [h2]
      rfl
    · exact ih (writeMetadata ser cli client fs q) post h

theorem download_content_writes_shape (cli : CliOpts) (client : KemonoClient)
    (net : Net) (fs : FS) (post : Post) (att : Attachment) :
    (download_content cli client net fs post att).writes = []
    ∨ ∃ q d, (download_content cli client net fs post att).writes = [(q, d)] ∧ fs q = none := by
  obtain ⟨n0, p0⟩ := att
  cases n0 with
  | none => left; rw [download_content_no_name]
  | some name =>
    cases p0 with
    | none => left; rw [download_content_no_path]
    | some ap =>
      by_cases hex : (fs (canonicalPath cli client post name)).isSome = true
      · left; rw [download_content_exists cli client net fs post name ap hex]
      · rw [Bool.not_eq_true] at hex
        by_cases hmkv : (cli.mkvs && (fs (mkvSiblingPath cli client post name)).isSome) = true
        · left; rw [download_content_mkv cli client net fs post name ap hex hmkv]
        · rw [Bool.not_eq_true] at hmkv
          rw [download_content_fetch cli client net fs post name ap hex hmkv]
          simp only
          rcases hnet : net ("https://" ++ client.hostname
              ++ (if startsWithSlash ap then ap else "/" ++ ap)) with e | data
          · left; rfl
          · right
            refine ⟨canonicalPath cli client post name, data, rfl, ?_⟩
            rw [Bool.eq_false_iff] at hex
            exact Option.not_isSome_iff_eq_none.mp hex

theorem taskOutcome_trace_shape (cli : CliOpts) (client : KemonoClient)
    (net : Net) (fs : FS) (task : Post × Attachment) :
    (taskOutcome cli client net fs task).trace = none
    ∨ (taskOutcome cli client net fs task).trace
        = some (download_content cli client net fs task.1 task.2) := by
  by_cases hskip : filterSkips cli.filename task.2.name = true
  · left
    simp [taskOutcome, hskip]
  · right
    rw [Bool.not_eq_true] at hskip
    rcases hres : (download_content cli client net fs task.1 task.2).result with e | u
    · rcases e with re | m | m | _ | m
      · rcases hstat : re.status with _ | code
        · simp [taskOutcome, hskip, hres, hstat]
        · by_cases hc : code = 429
          · simp [taskOutcome, hskip, hres, hstat, hc]
          · simp [taskOutcome, hskip, hres, hstat, hc]
      · simp [taskOutcome, hskip, hres]
      · simp [taskOutcome, hskip, hres]
      · simp [taskOutcome, hskip, hres]
      · simp [taskOutcome, hskip, hres]
    · simp [taskOutcome, hskip, hres]

theorem runBatch_preserves (cli : CliOpts) (client : KemonoClient) (net : Net)
    (tasks : List (Post × Attachment)) :
    ∀ (fs : FS) (p : String) (c : String), fs p = some c →
      (runBatch cli client net fs tasks).2 p = some c := by
  induction tasks with
  | nil => intro fs p c h; exact h
  | cons t ts ih =>
    intro fs p c h
    show (runBatch cli client net _ ts).2 p = some c
    rcases taskOutcome_trace_shape cli client net fs t with htr | htr
    · rw [htr]
      exact ih fs p c h
    · rw [htr]
      show (runBatch cli client net
        (applyWrites fs (download_content cli client net fs t.1 t.2).writes) ts).2 p = some c
      rcases download_content_writes_shape cli client net fs t.1 t.2 with hw | ⟨q, d, hw, hq⟩
      · rw [hw]
        exact ih fs p c h
      · rw [hw]
        apply ih
        show fsUpdate fs q (some d) p = some c
        unfold fsUpdate
        rw [if_neg (fun hpq => by rw [hpq, hq] at h; exact Option.noConfusion h)]
        exact h

/-- C7: over any `do_download` run, every file that existed before the run
(in particular every already-written post metadata file) still holds
exactly its old contents afterwards — metadata is never rewritten — and
every processed post's metadata file exists after the run, whether or not
any of its attachments were downloaded. -/
theorem metadata_write_once (ser : Post → String) (cli : CliOpts)
    (client : KemonoClient) (net : Net) (fs : FS) (posts : List Post) :
    (∀ p c, fs p = some c → (do_download ser cli client net fs posts).fs p = some c)
    ∧ (∀ post ∈ posts,
        ((do_download ser cli client net fs posts).fs (metadataPath cli client post)).isSome
          = true) := by
  constructor
  · intro p c h
    exact runBatch_preserves cli client net _ _ p c
      (processPosts_preserves ser cli client posts fs p c h)
  · intro post hpost
    have h1 := processPosts_written ser cli client posts fs post hpost
    rcases Option.isSome_iff_exists.mp h1 with ⟨c, hc⟩
    have h2 := runBatch_preserves cli client net
      (processPosts ser cli client fs posts).2
      (processPosts ser cli client fs posts).1 (metadataPath cli client post) c hc
    show ((runBatch cli client net _ _).2 (metadataPath cli client post)).isSome = true
    rw [h2]
    rfl

/-- Serialization stand-in for `serde_json::to_string_pretty` in
witnesses: any concrete function will do, C7 holds for all of them. -/
def ser0 : Post → String := fun p => p.id

/-- A filesystem holding one pre-existing file. -/
def fsSeed : FS := fsUpdate fsEmpty ("seed.txt") (some ("c0"))

/-- C7 witness: a pre-existing file survives a `do_download` run
unchanged, and the processed post's metadata file exists afterwards even
though the post has no attachments at all. -/
theorem metadata_write_once_witness :
    (do_download ser0 cli0 client0 net0 fsSeed [post0]).fs ("seed.txt") = some ("c0")
    ∧ ((do_download ser0 cli0 client0 net0 fsSeed [post0]).fs
        (metadataPath cli0 client0 post0)).isSome = true := by
  have h := metadata_write_once ser0 cli0 client0 net0 fsSeed [post0]
  exact ⟨h.1 ("seed.txt") ("c0") (by simp [fsSeed, fsUpdate]),
    h.2 post0 (List.mem_cons_self post0 [])⟩

/-! ## Theorems: tree walker (C8) -/

/-- The (creator, service) pairs the walker runs the pipeline for:
directory creators passing the creator filter × their directory services
passing the service filter. -/
def updatePairs (cf sf : String) (root : List CreatorEntry) : List (String × String) :=
  (root.filter (fun c => c.isDir && decide (cf = "" ∨ c.name = cf))).flatMap
    (fun c => (c.services.filter (fun s => s.isDir && decide (sf = "" ∨ sf = s.name))).map
      (fun s => (c.name, s.name)))

/-- The skip warnings the walker prints: one per non-directory service
entry under a walked (directory, filter-passing) creator. -/
def updateWarnings (cf sf : String) (root : List CreatorEntry) : List String :=
  (root.filter (fun c => c.isDir && decide (cf = "" ∨ c.name = cf))).flatMap
    (fun c => (c.services.filter (fun s => !s.isDir)).map
      (fun s => "Skipping service " ++ s.name))

theorem services_foldl_spec (sf cn : String) (ss : List ServiceEntry) :
    ∀ acc : UpdateRun,
      ss.foldl (updateServiceStep sf cn) acc
        = ⟨acc.processed
             ++ (ss.filter (fun s => s.isDir && decide (sf = "" ∨ sf = s.name))).map
                  (fun s => (cn, s.name)),
           acc.warnings
             ++ (ss.filter (fun s => !s.isDir)).map
                  (fun s => "Skipping service " ++ s.name)⟩ := by
  induction ss with
  | nil => intro acc; simp
  | cons s ss ih =>
    intro acc
    rw [List.foldl_cons, ih]
    by_cases hd : s.isDir = true
    · by_cases hflt : sf ≠ "" ∧ sf ≠ s.name
      · have hstep : updateServiceStep sf cn acc s = acc := by
          simp [updateServiceStep, hd, hflt]
        rw [hstep]
        simp [List.filter_cons, hd, hflt.1, hflt.2]
      · have hstep : updateServiceStep sf cn acc s
            = { acc with processed := acc.processed ++ [(cn, s.name)] } := by
          simp [updateServiceStep, hd, hflt]
        rw [hstep]
        rcases not_and_or.mp hflt with h | h
        · rw [not_not] at h
          simp [List.filter_cons, hd, h]
        · rw [not_not] at h
          simp [List.filter_cons, hd, h]
    · rw [Bool.not_eq_true] at hd
      have hstep : updateServiceStep sf cn acc s
          = { acc with warnings := acc.warnings ++ ["Skipping service " ++ s.name] } := by
        simp [updateServiceStep, hd]
      rw [hstep]
      simp [List.filter_cons, hd]

theorem creators_foldl_spec (cf sf : String) (root : List CreatorEntry) :
    ∀ acc : UpdateRun,
      root.foldl (updateCreatorStep cf sf) acc
        = ⟨acc.processed ++ updatePairs cf sf root,
           acc.warnings ++ updateWarnings cf sf root⟩ := by
  induction root with
  | nil => intro acc; simp [updatePairs, updateWarnings]
  | cons c cs ih =>
    intro acc
    rw [List.foldl_cons]
    by_cases hflt : cf ≠ "" ∧ c.name ≠ cf
    · have hstep : updateCreatorStep cf sf acc c = acc := by
        simp [updateCreatorStep, hflt]
      rw [hstep, ih]
      simp [updatePairs, updateWarnings, List.filter_cons, hflt.1, hflt.2]
    · by_cases hd : c.isDir = true
      · have hstep : updateCreatorStep cf sf acc c
            = c.services.foldl (updateServiceStep sf c.name) acc := by
          simp [updateCreatorStep, hflt, hd]
        rw [hstep, services_foldl_spec, ih]
        rcases not_and_or.mp hflt with h | h
        · rw [not_not] at h
          simp [updatePairs, updateWarnings, List.filter_cons, hd, h,
            List.flatMap_cons, List.append_assoc]
        · rw [not_not] at h
          simp [updatePairs, updateWarnings, List.filter_cons, hd, h,
            List.flatMap_cons, List.append_assoc]
      · rw [Bool.not_eq_true] at hd
        have hstep : updateCreatorStep cf sf acc c = acc := by
          simp [updateCreatorStep, hflt, hd]
        rw [hstep, ih]
        simp [updatePairs, updateWarnings, List.filter_cons, hd]

/-- The spec's concrete root: creators `a` (services `serviceX`,
`serviceY`) and `b` (service `serviceX`), all directories. -/
def rootAB : List CreatorEntry :=
  [⟨"a", true, [⟨"serviceX", true⟩, ⟨"serviceY", true⟩]⟩,
   ⟨"b", true, [⟨"serviceX", true⟩]⟩]

/-- C8 (amended): `do_update` runs the pipeline for exactly the
directory×directory (creator, service) pairs surviving the filters —
with creator filter `a` on the sample root, exactly `a/serviceX` and
`a/serviceY` — and warns for each non-directory service entry; a
non-directory creator entry is skipped silently, not warned. -/
theorem do_update_characterization (cf sf : String) (root : List CreatorEntry) :
    (do_update cf sf root).processed = updatePairs cf sf root
    ∧ (do_update cf sf root).warnings = updateWarnings cf sf root
    ∧ (do_update ("a") ("") rootAB).processed
        = [(("a"), ("serviceX")), (("a"), ("serviceY"))] := by
  refine ⟨?_, ?_, by decide⟩
  · rw [do_update, creators_foldl_spec]
    simp
  · rw [do_update, creators_foldl_spec]
    simp

/-- A root whose only creator-level entry is a plain file. -/
def rootJunk : List CreatorEntry := [⟨"junk.txt", false, []⟩]

/-- C8 counterexample: a non-directory entry at the creator level is
skipped *silently* — `do_update` emits no warning for it — refuting the
claim that non-directory entries at either level are skipped with a
warning. -/
theorem creator_nondir_silently_skipped :
    (do_update ("") ("") rootJunk).warnings = []
    ∧ (do_update ("") ("") rootJunk).processed = [] := by
  decide

/-- C9 witness: idempotence and segment count at `a.mp4`, identity at
`a.txt` (no `mp4`/`m4v` segment). -/
theorem get_mkv_filename_idem_id_segments_witness :
    get_mkv_filename (get_mkv_filename ("a.mp4")) = get_mkv_filename ("a.mp4")
    ∧ get_mkv_filename ("a.txt") = ("a.txt")
    ∧ (splitDot (get_mkv_filename ("a.mp4")).data).length = (splitDot ("a.mp4").data).length := by
  have h1 := get_mkv_filename_idem_id_segments ("a.mp4")
  have h2 := get_mkv_filename_idem_id_segments ("a.txt")
  exact ⟨h1.1, h2.2.1 (by decide), h1.2.2⟩

end Kemono
